import Mathlib

/-!
Verification of the `managed-cache` cache manager (`src/cache-policy.ts`,
`src/memory-cache.ts`, `src/cache-item.ts`, `src/cache-options.ts`).

The TypeScript code is shallowly embedded: the mutable `CacheManager`
(its storage backend, policy registry and context registry) becomes an
explicit `ManagerState` threaded through the operations; JavaScript
`Date` values become integer millisecond timestamps (`Date.valueOf`);
JavaScript truthiness tests are translated case by case at each use
site.
-/

namespace ManagedCache

/-- Cached values (`unknown` in the source).  A small closed universe is
enough for every claim: strings, integers, booleans, `undefined`, and
promise handles (identified by a numeric id, standing for object
identity of a `Promise`). -/
inductive Value where
  | vstr : String → Value
  | vnum : Int → Value
  | vbool : Bool → Value
  | vundef : Value
  | vprom : Nat → Value
deriving DecidableEq, Repr

/-- Cache keys (`unknown` in the source).  `kstr` is a plain string key;
`karr` is the two-element array `[name, parameters]` that `wrap` builds
as its default key; `kraw` stands for any other opaque key value. -/
inductive Key where
  | kstr : String → Key
  | karr : String → List Value → Key
  | kraw : Nat → Key
deriving DecidableEq, Repr

/-- JavaScript truthiness of a `Key`, used for `if (policyKey)`:
the empty string is falsy, arrays and other objects are truthy. -/
def Key.truthy : Key → Bool
  | .kstr s => s ≠ ""
  | .karr _ _ => true
  | .kraw _ => true

/-- Hash strings produced by `CacheManager.getHash`.  A string key is
used verbatim (`hstr`); a non-string key is content-hashed by the
external `object-hash` library.  Modelled from the spec: `object-hash`
is an external collaborator whose source is not part of this
repository; §4.1 requires a deterministic content hash on which
semantically equal keys agree, so it is modelled as the injective
embedding `hkey` of the key's content. -/
inductive Hash where
  | hstr : String → Hash
  | hkey : Key → Hash
deriving DecidableEq, Repr

/-- `CacheManager.getHash`: `typeof key === "string" ? key : hash(key)`. -/
def getHash : Key → Hash
  | .kstr s => .hstr s
  | k => .hkey k

/-- `ICacheItem` (src/cache-item.ts): timestamps are integer
milliseconds; optional fields are `Option`s. -/
structure CacheItem where
  key : Key
  value : Value
  context : Option String := none
  policyKey : Option Key := none
  maxAge : Option Int := none
  sliding : Option Bool := none
  created : Int
  accessed : Int
deriving DecidableEq, Repr

/-- `maxAge` of a policy: `number | ((...parameters) => number)`. -/
inductive MaxAge where
  | num : Int → MaxAge
  | fn : (List Value → Int) → MaxAge

/-- `ICachePolicy` (src/cache-policy.ts). -/
structure CachePolicy where
  maxAge : MaxAge
  sliding : Option Bool := none
  keepRejectedPromise : Option Bool := none

/-- The `context` option: `string | ((...parameters) => string | undefined)`. -/
inductive ContextOption where
  | cstr : String → ContextOption
  | cfn : (List Value → Option String) → ContextOption

/-- `ICacheOptions` (src/cache-options.ts). -/
structure CacheOptions where
  context : Option ContextOption := none
  policyKey : Option Key := none
  policy : Option CachePolicy := none

/-- The mutable state of a `CacheManager` with a `MemoryCache` backend:
the storage map (hash → item), the policy registry `_policies` and the
context registry `_contexts` (a JavaScript `Set` becomes a
duplicate-free list in insertion order). -/
structure ManagerState where
  storage : Hash → Option CacheItem
  policies : Hash → Option CachePolicy
  contexts : String → Option (List Hash)

/-- The state of a freshly constructed manager: all three maps empty. -/
def ManagerState.initial : ManagerState :=
  { storage := fun _ => none, policies := fun _ => none, contexts := fun _ => none }

/-- Pointwise update of one of the state's maps. -/
def updateMap {α β : Type} [DecidableEq α] (m : α → Option β) (a : α) (v : Option β) :
    α → Option β :=
  fun x => if x = a then v else m x

/-- `CacheManager.expired(cacheItem, time)`: `!cacheItem.maxAge` is the
JavaScript falsiness test, true when `maxAge` is absent or `0`;
`cacheItem.sliding ? accessed : created` picks the start of the age;
the item is expired iff `age > maxAge` strictly. -/
def expired (cacheItem : CacheItem) (time : Int) : Bool :=
  match cacheItem.maxAge with
  | none => false
  | some maxAge =>
    if maxAge = 0 then
      false
    else
      let start := if cacheItem.sliding = some true then cacheItem.accessed else cacheItem.created
      let age := time - start
      age > maxAge

/-- `Set.prototype.add`: insertion-ordered, no duplicates. -/
def addHash (hashes : List Hash) (h : Hash) : List Hash :=
  if h ∈ hashes then hashes else hashes ++ [h]

/-- `CacheManager.getCacheItem(key)`: hash the key, look it up; a
missing entry is a miss; an expired entry is removed from storage (a
direct `storage.remove`, the context registry is not touched) and is a
miss; otherwise `accessed` is set to `now` (the item in storage is the
same object, so storage reflects the mutation) and the item returned. -/
def getCacheItem (st : ManagerState) (key : Key) (now : Int) :
    Option CacheItem × ManagerState :=
  let keyHash := getHash key
  match st.storage keyHash with
  | none => (none, st)
  | some cacheItem =>
    if expired cacheItem now then
      (none, { st with storage := updateMap st.storage keyHash none })
    else
      let cacheItem := { cacheItem with accessed := now }
      (some cacheItem, { st with storage := updateMap st.storage keyHash (some cacheItem) })

/-- `CacheManager.setCacheItem(cacheItem)`: store under the key's hash;
if the item's `context` is a string (`typeof context === "string"`,
true for the empty string too) register the hash in that context's set,
creating the set lazily. -/
def setCacheItem (st : ManagerState) (cacheItem : CacheItem) : ManagerState :=
  let keyHash := getHash cacheItem.key
  let st := { st with storage := updateMap st.storage keyHash (some cacheItem) }
  match cacheItem.context with
  | some context =>
    let hashes := (st.contexts context).getD []
    { st with contexts := updateMap st.contexts context (some (addHash hashes keyHash)) }
  | none => st

/-- `CacheManager.has(key)`: `!!cacheItem && !this.expired(cacheItem)`.
The source method only calls `storage.get` and `expired`, neither of
which writes, so its state-passing embedding returns the state
unchanged alongside the boolean. -/
def hasOp (st : ManagerState) (key : Key) (now : Int) : Bool × ManagerState :=
  let keyHash := getHash key
  match st.storage keyHash with
  | none => (false, st)
  | some cacheItem => (!expired cacheItem now, st)

/-- `CacheManager.get(key)`: `cacheItem ? cacheItem.value : undefined`. -/
def get (st : ManagerState) (key : Key) (now : Int) : Value × ManagerState :=
  match getCacheItem st key now with
  | (some cacheItem, st) => (cacheItem.value, st)
  | (none, st) => (.vundef, st)

/-- Lines 131–142 of `CacheManager.set`: resolve the policy — first via
the hash of a truthy `options.policyKey` in the policy registry, then
falling back to `options.policy`. -/
def resolvePolicy (st : ManagerState) (options : Option CacheOptions) : Option CachePolicy :=
  match options with
  | none => none
  | some options =>
    let fromKey := match options.policyKey with
      | some policyKey => if policyKey.truthy then st.policies (getHash policyKey) else none
      | none => none
    match fromKey with
    | some policy => some policy
    | none => options.policy

/-- The `context` computation in `CacheManager.set`: `if (context)` —
the empty string is falsy — then a string is used directly and a
function is applied to `parameters` (spread of the empty argument list
when `parameters` is absent). -/
def resolveContext (options : Option CacheOptions) (parameters : Option (List Value)) :
    Option String :=
  match options with
  | none => none
  | some options =>
    match options.context with
    | some (.cstr s) => if s = "" then none else some s
    | some (.cfn f) => f (parameters.getD [])
    | none => none

/-- The `cacheItem.policyKey` assignment in `CacheManager.set`: set only
when `options.policyKey` is truthy (function-valued policy keys are
modelled as plain key values). -/
def resolvePolicyKeyField (options : Option CacheOptions) : Option Key :=
  match options with
  | none => none
  | some options =>
    match options.policyKey with
    | some policyKey => if policyKey.truthy then some policyKey else none
    | none => none

/-- `CacheManager.set(key, value, options?, parameters?)`, returning the
new state together with whether a rejection handler
(`value.catch(() => this.remove(key))`) was attached.  The early
`return` fires only when the resolved policy's `maxAge` is the number
`0` (`maxAge === 0`); a function-valued `maxAge` is never compared
against `0`, its result is captured into the item. -/
def setFull (st : ManagerState) (key : Key) (value : Value) (options : Option CacheOptions)
    (parameters : Option (List Value)) (now : Int) : ManagerState × Bool :=
  let base : CacheItem :=
    { key := key, value := value, created := now, accessed := now,
      context := resolveContext options parameters,
      policyKey := resolvePolicyKeyField options }
  let policy := resolvePolicy st options
  match policy with
  | some policy =>
    match policy.maxAge with
    | .num n =>
      if n = 0 then
        (st, false)
      else
        let cacheItem := { base with maxAge := some n, sliding := policy.sliding }
        let attach := !(policy.keepRejectedPromise = some true) &&
          (match value with | .vprom _ => true | _ => false)
        (setCacheItem st cacheItem, attach)
    | .fn f =>
      let cacheItem :=
        { base with maxAge := some (f (parameters.getD [])), sliding := policy.sliding }
      let attach := !(policy.keepRejectedPromise = some true) &&
        (match value with | .vprom _ => true | _ => false)
      (setCacheItem st cacheItem, attach)
  | none =>
    let attach := match value with | .vprom _ => true | _ => false
    (setCacheItem st base, attach)

/-- `CacheManager.set`, state component only. -/
def set (st : ManagerState) (key : Key) (value : Value) (options : Option CacheOptions)
    (parameters : Option (List Value)) (now : Int) : ManagerState :=
  (setFull st key value options parameters now).1

/-- `CacheManager.remove(key)`: remove the entry from storage; when one
existed and its `context` is truthy (a nonempty string), delete the
hash from that context's set (the source indexes `_contexts[context]`
directly; on every state the manager can reach the set exists, and a
missing set is embedded as leaving the registry unchanged). -/
def remove (st : ManagerState) (key : Key) : Bool × ManagerState :=
  let keyHash := getHash key
  match st.storage keyHash with
  | none => (false, st)
  | some cacheItem =>
    let st := { st with storage := updateMap st.storage keyHash none }
    match cacheItem.context with
    | some context =>
      if context = "" then
        (true, st)
      else
        match st.contexts context with
        | some hashes =>
          (true, { st with
            contexts := updateMap st.contexts context (some (hashes.filter (· ≠ keyHash))) })
        | none => (true, st)
    | none => (true, st)

/-- `CacheManager.removeContext(context)`: when the context has a
registered set, remove every listed hash from storage (a loop of direct
`storage.remove` calls) and delete the context's registry entry;
otherwise do nothing. -/
def removeContext (st : ManagerState) (context : String) : ManagerState :=
  match st.contexts context with
  | some hashes =>
    { st with
      storage := hashes.foldl (fun s h => updateMap s h none) st.storage,
      contexts := updateMap st.contexts context none }
  | none => st

/-- `CacheManager.clear()`: empty the storage and the context registry;
the policy registry is kept. -/
def clear (st : ManagerState) : ManagerState :=
  { st with storage := fun _ => none, contexts := fun _ => none }

/-- `CacheManager.setCachePolicy(policyKey, policy)`:
`this._policies[this.getHash(policyKey)] = policy`. -/
def setCachePolicy (st : ManagerState) (policyKey : Key) (policy : CachePolicy) :
    ManagerState :=
  { st with policies := updateMap st.policies (getHash policyKey) (some policy) }

/-- After a rejection handler was attached by `set`, the settlement of
the promise: when the handler is attached and the promise rejects, the
handler runs `this.remove(key)`; otherwise the state is untouched. -/
def settleRejection (st : ManagerState) (key : Key) (attached rejected : Bool) :
    ManagerState :=
  if attached && rejected then (remove st key).2 else st

/-- A wrappable callable: `target.name` (used in the default cache key)
and its behavior on an argument list. -/
structure Target where
  name : String
  fn : List Value → Value

/-- The default cache key `[target.name, parameters]` built by `wrap`
when no `getKey` function is given. -/
def defaultKey (name : String) (parameters : List Value) : Key :=
  .karr name parameters

/-- One invocation of the callable returned by
`CacheManager.wrap(target, cacheOptions)` with no `getKey`: build the
default key, try the read path; on a hit return the cached value; on a
miss invoke the target, write through `set` with the same key, options
and parameters, and return the fresh value. -/
def wrapCall (target : Target) (cacheOptions : Option CacheOptions) (st : ManagerState)
    (parameters : List Value) (now : Int) : Value × ManagerState :=
  let key := defaultKey target.name parameters
  match getCacheItem st key now with
  | (some cacheItem, st) => (cacheItem.value, st)
  | (none, st) =>
    let value := target.fn parameters
    (value, set st key value cacheOptions (some parameters) now)

/-- **C1.** `expired(entry, now)` is false when `maxAge` is absent or
zero; otherwise, with `start = accessed` if sliding else `created` and
`age = now - start`, it is true iff `age > maxAge` strictly — age equal
to `maxAge` is not expired. -/
theorem expired_boundary_spec (it : CacheItem) (now : Int) :
    ((it.maxAge = none ∨ it.maxAge = some 0) → expired it now = false) ∧
    (∀ m : Int, it.maxAge = some m → m ≠ 0 →
      (expired it now = true ↔
        now - (if it.sliding = some true then it.accessed else it.created) > m)) := by
  constructor
  · rintro (h | h) <;> simp [expired, h]
  · intro m hm hm0
    simp [expired, hm, hm0, decide_eq_true_iff]

/-- A concrete sliding entry used as the witness input for C1:
`maxAge = 5`, `accessed = 100`. -/
def slidingItemEx : CacheItem :=
  { key := .kstr "k", value := .vnum 1, maxAge := some 5, sliding := some true,
    created := 0, accessed := 100 }

/-- Witness for C1 at `slidingItemEx`: read at `106` (age 6 > 5,
expired), while at `105` (age 5 = maxAge) the entry is not expired. -/
theorem expired_boundary_spec_witness :
    expired slidingItemEx 106 = true ∧ expired slidingItemEx 105 = false := by
  refine ⟨((expired_boundary_spec slidingItemEx 106).2 5 rfl (by decide)).mpr (by decide), ?_⟩
  have h := (expired_boundary_spec slidingItemEx 105).2 5 rfl (by decide)
  exact Bool.eq_false_iff.mpr fun he => absurd (h.mp he) (by decide)


/-- Auxiliary: an unexpired hit cannot be expired after its `accessed`
timestamp is refreshed to `now`, provided `accessed ≤ now`. -/
theorem expired_after_touch (it : CacheItem) (now : Int) (hacc : it.accessed ≤ now)
    (hexp : expired it now = false) : expired { it with accessed := now } now = false := by
  cases hma : it.maxAge with
  | none => simp [expired, hma]
  | some m =>
    by_cases hm0 : m = 0
    · simp [expired, hma, hm0]
    · by_cases hsl : it.sliding = some true <;>
        simp [expired, hma, hm0, hsl, decide_eq_true_eq] at hexp ⊢ <;> omega

/-- **C2.** `getCacheItem(key)` misses when storage has no entry for the
key's hash; an entry expired at `now` is removed from storage and the
call misses; otherwise `accessed` is set to `now` (in the returned item
and in storage) and the item is returned — and, when the stored entry's
`accessed` timestamp is not in the future, any returned item is
unexpired at `now`. -/
theorem getCacheItem_read_path (st : ManagerState) (k : Key) (now : Int) :
    (st.storage (getHash k) = none → getCacheItem st k now = (none, st)) ∧
    (∀ it, st.storage (getHash k) = some it → expired it now = true →
      getCacheItem st k now =
        (none, { st with storage := updateMap st.storage (getHash k) none })) ∧
    (∀ it, st.storage (getHash k) = some it → expired it now = false →
      getCacheItem st k now =
        (some { it with accessed := now },
         { st with storage :=
            updateMap st.storage (getHash k) (some { it with accessed := now }) })) ∧
    (∀ it it', st.storage (getHash k) = some it → it.accessed ≤ now →
      (getCacheItem st k now).1 = some it' → expired it' now = false) := by
  refine ⟨?_, ?_, ?_, ?_⟩
  · intro h; simp [getCacheItem, h]
  · intro it h hexp; simp [getCacheItem, h, hexp]
  · intro it h hexp; simp [getCacheItem, h, hexp]
  · intro it it' h hacc h1
    by_cases hexp : expired it now
    · simp [getCacheItem, h, hexp] at h1
    · simp only [Bool.not_eq_true] at hexp
      simp [getCacheItem, h, hexp] at h1
      exact h1 ▸ expired_after_touch it now hacc hexp

/-- Witness for C2: `slidingItemEx` stored under its key, read at time
`104` (age 4 ≤ 5): the hit refreshes `accessed` to `104` and the
returned item is unexpired. -/
theorem getCacheItem_read_path_witness :
    (getCacheItem (setCacheItem ManagerState.initial slidingItemEx) (Key.kstr "k") 104).1 =
      some { slidingItemEx with accessed := 104 } ∧
    expired { slidingItemEx with accessed := 104 } 104 = false := by
  have h := getCacheItem_read_path (setCacheItem ManagerState.initial slidingItemEx)
    (Key.kstr "k") 104
  have hs : (setCacheItem ManagerState.initial slidingItemEx).storage
      (getHash (Key.kstr "k")) = some slidingItemEx := by decide
  have h3 := h.2.2.1 slidingItemEx hs (by decide)
  exact ⟨by rw [h3], h.2.2.2 slidingItemEx _ hs (by decide) (by rw [h3])⟩

/-- **C10.** `has(key)` is true iff storage holds an unexpired entry for
the key's hash and, unlike `getCacheItem`, it mutates nothing: the state
is returned unchanged, so an expired entry is neither evicted nor is
its `accessed` timestamp touched. -/
theorem has_pure_query (st : ManagerState) (k : Key) (now : Int) :
    (hasOp st k now).2 = st ∧
    ((hasOp st k now).1 = true ↔
      ∃ it, st.storage (getHash k) = some it ∧ expired it now = false) ∧
    (∀ it, st.storage (getHash k) = some it → expired it now = true →
      (hasOp st k now).1 = false ∧ (hasOp st k now).2.storage (getHash k) = some it) := by
  refine ⟨?_, ?_, ?_⟩
  · cases h : st.storage (getHash k) <;> simp [hasOp, h]
  · cases h : st.storage (getHash k) with
    | none => simp [hasOp, h]
    | some it => cases hexp : expired it now <;> simp [hasOp, h, hexp]
  · intro it h hexp
    simp [hasOp, h, hexp]

/-- Witness for C10 at `slidingItemEx` stored and read at `106`
(age 6 > 5, expired): `has` answers false yet the entry stays in
storage. -/
theorem has_pure_query_witness :
    (hasOp (setCacheItem ManagerState.initial slidingItemEx) (Key.kstr "k") 106).1 = false ∧
    (hasOp (setCacheItem ManagerState.initial slidingItemEx) (Key.kstr "k") 106).2.storage
      (getHash (Key.kstr "k")) = some slidingItemEx := by
  exact (has_pure_query (setCacheItem ManagerState.initial slidingItemEx) (Key.kstr "k")
    106).2.2 slidingItemEx (by decide) (by decide)

/-- **C6.** `setCachePolicy(policyKey, policy)` changes only the policy
registry: storage and the context registry are untouched, so every
stored entry keeps its captured `maxAge` and `sliding`, and both the
result and the storage effect of any subsequent read are unchanged. -/
theorem setCachePolicy_frame (st : ManagerState) (pk : Key) (p : CachePolicy) :
    (setCachePolicy st pk p).storage = st.storage ∧
    (setCachePolicy st pk p).contexts = st.contexts ∧
    (∀ k now, (getCacheItem (setCachePolicy st pk p) k now).1 = (getCacheItem st k now).1 ∧
      (getCacheItem (setCachePolicy st pk p) k now).2.storage =
        (getCacheItem st k now).2.storage) ∧
    (∀ k now, (hasOp (setCachePolicy st pk p) k now).1 = (hasOp st k now).1) := by
  refine ⟨rfl, rfl, ?_, ?_⟩
  · intro k now
    cases h : st.storage (getHash k) with
    | none => simp [getCacheItem, setCachePolicy, h]
    | some it => cases hexp : expired it now <;> simp [getCacheItem, setCachePolicy, h, hexp]
  · intro k now
    cases h : st.storage (getHash k) <;> simp [hasOp, setCachePolicy, h]

theorem updateMap_self {α β : Type} [DecidableEq α] (m : α → Option β) (a : α)
    (v : Option β) : updateMap m a v a = v := by
  simp [updateMap]

theorem updateMap_other {α β : Type} [DecidableEq α] (m : α → Option β) (a x : α)
    (v : Option β) (hx : x ≠ a) : updateMap m a v x = m x := by
  simp [updateMap, hx]

/-- The storage effect of `setCacheItem` does not depend on the item's
context branch. -/
theorem setCacheItem_storage (st : ManagerState) (it : CacheItem) :
    (setCacheItem st it).storage = updateMap st.storage (getHash it.key) (some it) := by
  cases h : it.context <;> simp [setCacheItem, h]

/-- `setCacheItem` leaves every context other than the item's own
unchanged, and leaves the whole registry unchanged for a context-less
item. -/
theorem setCacheItem_contexts (st : ManagerState) (it : CacheItem) :
    (it.context = none → (setCacheItem st it).contexts = st.contexts) ∧
    (∀ c, it.context = some c →
      (setCacheItem st it).contexts =
        updateMap st.contexts c
          (some (addHash ((st.contexts c).getD []) (getHash it.key)))) := by
  constructor
  · intro h; simp [setCacheItem, h]
  · intro c h; simp [setCacheItem, h]

/-- After `remove(key)` the key's hash is gone from storage in every
branch of the method. -/
theorem remove_storage_self (st : ManagerState) (k : Key) :
    (remove st k).2.storage (getHash k) = none := by
  cases h : st.storage (getHash k) with
  | none => simp [remove, h]
  | some it =>
    cases hc : it.context with
    | none => simp [remove, h, hc, updateMap_self]
    | some c =>
      by_cases hce : c = ""
      · simp [remove, h, hc, hce, updateMap_self]
      · cases hh : st.contexts c <;> simp [remove, h, hc, hce, hh, updateMap_self]

/-- Options whose inline policy has a function-valued `maxAge` that
returns `0` for every argument list. -/
def zeroFnOptions : CacheOptions :=
  { policy := some { maxAge := .fn (fun _ => 0) } }

/-- Counterexample to C3: with a policy whose `maxAge` is a function
returning `0`, `set` is not a no-op — the `maxAge === 0` guard only
matches the number `0`, so the entry is stored with `maxAge = 0` and,
`0` being falsy in `expired`, it never expires: `has` is true even
1000 time units later. -/
theorem set_maxAge_zero_fn_counterexample :
    (set ManagerState.initial (Key.kstr "k") (Value.vnum 7) (some zeroFnOptions)
        (some []) 0).storage (getHash (Key.kstr "k")) =
      some { key := Key.kstr "k", value := Value.vnum 7, maxAge := some 0,
             created := 0, accessed := 0 } ∧
    (hasOp (set ManagerState.initial (Key.kstr "k") (Value.vnum 7) (some zeroFnOptions)
        (some []) 0) (Key.kstr "k") 1000).1 = true := by
  decide

/-- **C3 (amended).** When the policy resolved by `set` has `maxAge`
equal to the *number* `0`, the write is a no-op: the state is returned
unchanged (and no rejection handler is attached), so `has(key)` on a
state with no entry for the key stays false.  A function-valued
`maxAge` returning `0` is not covered by the guard: the entry is stored
with a captured `maxAge` of `0` and never expires. -/
theorem set_maxAge_zero_num_noop (st : ManagerState) (k : Key) (v : Value)
    (options : Option CacheOptions) (ps : Option (List Value)) (now : Int)
    (p : CachePolicy) (hp : resolvePolicy st options = some p)
    (h0 : p.maxAge = MaxAge.num 0) :
    setFull st k v options ps now = (st, false) ∧
    (∀ now', st.storage (getHash k) = none →
      (hasOp (set st k v options ps now) k now').1 = false) := by
  have h1 : setFull st k v options ps now = (st, false) := by
    simp [setFull, hp, h0]
  refine ⟨h1, ?_⟩
  intro now' hnone
  simp [set, h1, hasOp, hnone]

/-- Options whose inline policy has the literal `maxAge` number `0`. -/
def zeroNumOptions : CacheOptions :=
  { policy := some { maxAge := .num 0 } }

/-- Witness for the amended C3 at `zeroNumOptions`: the write leaves the
fresh state unchanged and `has` is false afterward. -/
theorem set_maxAge_zero_num_noop_witness :
    setFull ManagerState.initial (Key.kstr "k") (Value.vnum 7) (some zeroNumOptions)
      none 0 = (ManagerState.initial, false) ∧
    (hasOp (set ManagerState.initial (Key.kstr "k") (Value.vnum 7) (some zeroNumOptions)
      none 0) (Key.kstr "k") 3).1 = false := by
  have h := set_maxAge_zero_num_noop ManagerState.initial (Key.kstr "k") (Value.vnum 7)
    (some zeroNumOptions) none 0 { maxAge := .num 0 } rfl rfl
  exact ⟨h.1, h.2 3 rfl⟩

/-- Options whose inline policy has the negative `maxAge` number `-1`. -/
def negOptions : CacheOptions :=
  { policy := some { maxAge := .num (-1) } }

/-- Counterexample to C4: with a resolved policy whose `maxAge` is `-1`
(not `0`), `set` stores the entry but an immediate `get` at the very
same time misses: the age `0` is already strictly greater than `-1`, so
the entry is expired on arrival and `undefined` is returned instead of
the stored value. -/
theorem set_get_roundtrip_counterexample :
    (get (set ManagerState.initial (Key.kstr "k") (Value.vnum 7) (some negOptions) none 0)
      (Key.kstr "k") 0).1 = Value.vundef ∧
    Value.vundef ≠ Value.vnum 7 := by
  decide

/-- **C4 (amended).** `set(K, V)` followed immediately by `get(K)` (at
the same time) returns exactly `V`, provided the resolved policy's
`maxAge` is not the number `0` and does not evaluate to a negative
number: a positive or absent `maxAge` — or even a function-valued
`maxAge` returning `0` — preserves the value, while a negative
evaluated `maxAge` makes the fresh entry expired on arrival. -/
theorem set_get_roundtrip (st : ManagerState) (k : Key) (v : Value)
    (options : Option CacheOptions) (ps : Option (List Value)) (now : Int)
    (hpol : ∀ p, resolvePolicy st options = some p →
      (∀ n, p.maxAge = MaxAge.num n → 0 < n) ∧
      (∀ f, p.maxAge = MaxAge.fn f → 0 ≤ f (ps.getD []))) :
    (get (set st k v options ps now) k now).1 = v := by
  cases hp : resolvePolicy st options with
  | none =>
    simp [get, getCacheItem, set, setFull, hp, setCacheItem_storage, updateMap_self, expired]
  | some p =>
    cases pm : p.maxAge with
    | num n =>
      have hn : 0 < n := (hpol p hp).1 n pm
      have hn0 : ¬n = 0 := by omega
      have hlt : ¬now - now > n := by omega
      have hneg : ¬n < 0 := by omega
      simp [get, getCacheItem, set, setFull, hp, pm, hn0, setCacheItem_storage,
        updateMap_self, expired, hlt, hneg]
    | fn f =>
      have hf : 0 ≤ f (ps.getD []) := (hpol p hp).2 f pm
      by_cases hf0 : f (ps.getD []) = 0
      · simp [get, getCacheItem, set, setFull, hp, pm, hf0, setCacheItem_storage,
          updateMap_self, expired]
      · have hlt : ¬now - now > f (ps.getD []) := by omega
        have hneg : ¬f (ps.getD []) < 0 := by omega
        simp [get, getCacheItem, set, setFull, hp, pm, hf0, setCacheItem_storage,
          updateMap_self, expired, hlt, hneg]

/-- Witness for the amended C4: a write with no options at time `5` is
read back unchanged at time `5`. -/
theorem set_get_roundtrip_witness :
    (get (set ManagerState.initial (Key.kstr "k") (Value.vnum 7) none none 5)
      (Key.kstr "k") 5).1 = Value.vnum 7 := by
  exact set_get_roundtrip ManagerState.initial (Key.kstr "k") (Value.vnum 7) none none 5
    (fun p hp => nomatch hp)

/-- Options tagging the entry with context `"A"` under a 100-unit
fixed-age policy. -/
def ctxAOptions : CacheOptions :=
  { context := some (.cstr "A"), policy := some { maxAge := .num 100 } }

/-- A state holding one entry with context `"A"` and `maxAge = 100`,
written at time `0`. -/
def ctxASt : ManagerState :=
  set ManagerState.initial (Key.kstr "k") (Value.vnum 1) (some ctxAOptions) none 0

/-- Counterexample to C5: reading the context-`"A"` entry at time `200`
finds it expired; the lazy eviction removes it from storage with a
direct `storage.remove`, and the hash stays registered under context
`"A"` — a context set retaining the hash of an entry the manager itself
deleted. -/
theorem lazy_eviction_keeps_context_hash_counterexample :
    ((getCacheItem ctxASt (Key.kstr "k") 200).2.storage (getHash (Key.kstr "k")) = none) ∧
    ((getCacheItem ctxASt (Key.kstr "k") 200).2.contexts "A" =
      some [getHash (Key.kstr "k")]) := by
  decide

/-- **C5 (amended).** Explicit `remove(key)` keeps the context registry
in sync: when the removed entry carries a nonempty-string context with
a registered set, the entry leaves storage and its hash leaves that
context's set.  Lazy eviction of an expired entry inside `getCacheItem`
removes the entry from storage only and leaves its hash in the context
registry. -/
theorem remove_updates_context_registry (st : ManagerState) (k : Key) (it : CacheItem)
    (c : String) (hashes : List Hash) (hit : st.storage (getHash k) = some it)
    (hc : it.context = some c) (hne : c ≠ "") (hh : st.contexts c = some hashes) :
    (remove st k).1 = true ∧
    (remove st k).2.storage (getHash k) = none ∧
    (remove st k).2.contexts c = some (hashes.filter (· ≠ getHash k)) ∧
    getHash k ∉ hashes.filter (· ≠ getHash k) := by
  refine ⟨?_, remove_storage_self st k, ?_, ?_⟩
  · simp [remove, hit, hc, hne, hh]
  · simp [remove, hit, hc, hne, hh, updateMap_self]
  · simp

/-- Witness for the amended C5 at the concrete context-`"A"` state:
removing the key empties storage at its hash and drops the hash from
context `"A"`'s set. -/
theorem remove_updates_context_registry_witness :
    (remove ctxASt (Key.kstr "k")).1 = true ∧
    (remove ctxASt (Key.kstr "k")).2.storage (getHash (Key.kstr "k")) = none ∧
    (remove ctxASt (Key.kstr "k")).2.contexts "A" = some [] := by
  have h := remove_updates_context_registry ctxASt (Key.kstr "k")
    { key := Key.kstr "k", value := Value.vnum 1, context := some "A",
      maxAge := some 100, created := 0, accessed := 0 }
    "A" [getHash (Key.kstr "k")] (by decide) rfl (by decide) (by decide)
  exact ⟨h.1, h.2.1, h.2.2.1⟩

/-- Options tagging the entry with context `"B"` (no policy). -/
def ctxBOptions : CacheOptions :=
  { context := some (.cstr "B") }

/-- The context-`"A"` state after the same key is overwritten by an
entry tagged with context `"B"`: the hash is now listed under both
contexts, but the stored entry carries context `"B"` only. -/
def ctxOverwriteSt : ManagerState :=
  set ctxASt (Key.kstr "k") (Value.vnum 2) (some ctxBOptions) none 0

/-- The entry stored in `ctxOverwriteSt`: tagged with context `"B"`. -/
def ctxBItem : CacheItem :=
  { key := Key.kstr "k", value := Value.vnum 2, context := some "B",
    created := 0, accessed := 0 }

/-- Counterexample to C7: in `ctxOverwriteSt` the (sole) stored entry is
tagged with context `"B"`, yet `removeContext("A")` deletes it from
storage, because the hash is still listed under `"A"` from the
overwritten write — an entry of another context is not left
untouched. -/
theorem removeContext_cross_context_counterexample :
    (∃ it, ctxOverwriteSt.storage (getHash (Key.kstr "k")) = some it ∧
      it.context = some "B") ∧
    (removeContext ctxOverwriteSt "A").storage (getHash (Key.kstr "k")) = none := by
  constructor
  · exact ⟨ctxBItem, by decide, by decide⟩
  · decide

/-- **C7 (amended).** `removeContext(C)` with a registered set removes
from storage exactly the hashes listed under `C` and deletes `C`'s
registry entry, leaving every other context's set unchanged; with an
unknown `C` it is a no-op.  "Exactly the hashes listed" is the precise
frame: an entry whose hash is stale-listed under `C` (after an
overwrite by a write of another context) is removed even though it is
tagged with a different context. -/
theorem removeContext_removes_listed (st : ManagerState) (c : String) :
    (st.contexts c = none → removeContext st c = st) ∧
    (∀ hashes, st.contexts c = some hashes →
      (∀ h, (removeContext st c).storage h = if h ∈ hashes then none else st.storage h) ∧
      (removeContext st c).contexts c = none ∧
      (∀ c', c' ≠ c → (removeContext st c).contexts c' = st.contexts c')) := by
  constructor
  · intro h; simp [removeContext, h]
  · intro hashes hh
    refine ⟨?_, ?_, ?_⟩
    · intro h
      have key : ∀ (l : List Hash) (s : Hash → Option CacheItem),
          (l.foldl (fun m x => updateMap m x none) s) h =
            if h ∈ l then none else s h := by
        intro l
        induction l with
        | nil => intro s; simp
        | cons a t ih =>
          intro s
          by_cases hht : h ∈ t
          · simp [ih, hht]
          · by_cases hha : h = a
            · subst hha; simp [ih, hht, updateMap]
            · simp [ih, hht, hha, updateMap]
      simp [removeContext, hh, key]
    · simp [removeContext, hh, updateMap_self]
    · intro c' hc'
      simp [removeContext, hh, updateMap_other _ _ _ _ hc']

/-- Witness for the amended C7 at `ctxOverwriteSt`: context `"A"` lists
one hash; removing it empties that storage slot, deletes `"A"`'s
registry entry and leaves context `"B"`'s set unchanged. -/
theorem removeContext_removes_listed_witness :
    (removeContext ctxOverwriteSt "A").storage (getHash (Key.kstr "k")) = none ∧
    (removeContext ctxOverwriteSt "A").contexts "A" = none ∧
    (removeContext ctxOverwriteSt "A").contexts "B" = ctxOverwriteSt.contexts "B" := by
  have h := (removeContext_removes_listed ctxOverwriteSt "A").2
    [getHash (Key.kstr "k")] (by decide)
  refine ⟨?_, h.2.1, h.2.2 "B" (by decide)⟩
  rw [h.1 (getHash (Key.kstr "k"))]
  decide

/-- A target named `"f"` returning `1`. -/
def wrapTarget1 : Target := { name := "f", fn := fun _ => Value.vnum 1 }

/-- A distinct target, also named `"f"`, returning `2`. -/
def wrapTarget2 : Target := { name := "f", fn := fun _ => Value.vnum 2 }

/-- Counterexample to C8's consequence that distinct wrapped targets do
not share entries: the default key is `[target.name, parameters]`, not
the target's identity, so calling a wrap of `wrapTarget2` (which
returns `2`) after a wrap of the same-named `wrapTarget1` has populated
the cache returns `wrapTarget1`'s cached `1` for the same arguments. -/
theorem wrap_same_name_collision_counterexample :
    wrapTarget1.fn [] ≠ wrapTarget2.fn [] ∧
    (wrapCall wrapTarget2 none
      (wrapCall wrapTarget1 none ManagerState.initial [] 0).2 [] 0).1 = Value.vnum 1 ∧
    wrapTarget2.fn [] = Value.vnum 2 := by
  refine ⟨by decide, by decide, by decide⟩

/-- **C8 (amended).** A wrapped callable with no `getKey` uses the
default key `[target.name, parameters]` (the target's *name*, not its
identity): on a hit the cached value is returned and the state is
exactly the read-path state (the target is not invoked and no write
happens); on a miss the target's value is returned and written under
the same key; the default keys of two distinct argument lists never
hash alike, and a write under one argument list leaves the entry of any
other argument list untouched — but two distinct targets sharing a
name share entries. -/
theorem wrap_default_key_behavior (t : Target) (opts : Option CacheOptions)
    (st : ManagerState) (ps : List Value) (now : Int) :
    (∀ it st', getCacheItem st (defaultKey t.name ps) now = (some it, st') →
      wrapCall t opts st ps now = (it.value, st')) ∧
    (∀ st', getCacheItem st (defaultKey t.name ps) now = (none, st') →
      wrapCall t opts st ps now =
        (t.fn ps, set st' (defaultKey t.name ps) (t.fn ps) opts (some ps) now)) ∧
    (∀ qs, ps ≠ qs → getHash (defaultKey t.name ps) ≠ getHash (defaultKey t.name qs)) ∧
    (∀ qs v, ps ≠ qs →
      (set st (defaultKey t.name ps) v opts (some ps) now).storage
        (getHash (defaultKey t.name qs)) =
      st.storage (getHash (defaultKey t.name qs))) := by
  refine ⟨?_, ?_, ?_, ?_⟩
  · intro it st' heq
    simp [wrapCall, heq]
  · intro st' heq
    simp [wrapCall, heq]
  · intro qs hne
    simp only [defaultKey, getHash, ne_eq, Hash.hkey.injEq, Key.karr.injEq]
    exact fun hcon => hne hcon.2
  · intro qs v hne
    have hhne : getHash (defaultKey t.name qs) ≠ getHash (defaultKey t.name ps) := by
      simp only [defaultKey, getHash, ne_eq, Hash.hkey.injEq, Key.karr.injEq]
      exact fun hcon => hne hcon.2.symm
    cases hp : resolvePolicy st opts with
    | none => simp [set, setFull, hp, setCacheItem_storage, updateMap_other _ _ _ _ hhne]
    | some p =>
      cases pm : p.maxAge with
      | num n =>
        by_cases hn0 : n = 0
        · simp [set, setFull, hp, pm, hn0]
        · simp [set, setFull, hp, pm, hn0, setCacheItem_storage,
            updateMap_other _ _ _ _ hhne]
      | fn f =>
        simp [set, setFull, hp, pm, setCacheItem_storage, updateMap_other _ _ _ _ hhne]

/-- The state after one wrapped call of `wrapTarget1` on `[]`. -/
def wrapHitSt : ManagerState :=
  (wrapCall wrapTarget1 none ManagerState.initial [] 0).2

/-- The entry `wrapHitSt` holds under the default key `["f", []]`. -/
def wrapHitItem : CacheItem :=
  { key := defaultKey "f" [], value := Value.vnum 1, created := 0, accessed := 0 }

/-- Witness for the amended C8: on the populated `wrapHitSt`, a call of
the same-named `wrapTarget2` on `[]` hits and returns the cached `1`,
and the default keys of `[]` and `[3]` hash differently. -/
theorem wrap_default_key_behavior_witness :
    (wrapCall wrapTarget2 none wrapHitSt [] 0).1 = Value.vnum 1 ∧
    getHash (defaultKey "f" []) ≠ getHash (defaultKey "f" [Value.vnum 3]) := by
  have h := wrap_default_key_behavior wrapTarget2 none wrapHitSt [] 0
  refine ⟨?_, h.2.2.1 [Value.vnum 3] (by decide)⟩
  have h1 := h.1 wrapHitItem (getCacheItem wrapHitSt (defaultKey wrapTarget2.name []) 0).2 rfl
  rw [h1]
  rfl

/-- Options with an inline `maxAge = 0` policy and no
`keepRejectedPromise` flag. -/
def zeroPromOptions : CacheOptions :=
  { policy := some { maxAge := .num 0 } }

/-- Counterexample to C9: a write of a pending promise under a resolved
policy with `maxAge` the number `0` and no `keepRejectedPromise` hits
the early `return` of `set`: no rejection handler is attached (the
flag is `false`) and nothing is stored, although the claim promises a
failure handler on every promise write without `keepRejectedPromise`. -/
theorem rejected_promise_noop_counterexample :
    (setFull ManagerState.initial (Key.kstr "k") (Value.vprom 0) (some zeroPromOptions)
      none 0).2 = false ∧
    (setFull ManagerState.initial (Key.kstr "k") (Value.vprom 0) (some zeroPromOptions)
      none 0).1 = ManagerState.initial := by
  exact ⟨rfl, rfl⟩

/-- The cache item built by `set` for a promise write, abbreviated. -/
def promItem (k : Key) (i : Nat) (options : Option CacheOptions)
    (ps : Option (List Value)) (now : Int) (ma : Option Int) (sl : Option Bool) :
    CacheItem :=
  { key := k, value := Value.vprom i, context := resolveContext options ps,
    policyKey := resolvePolicyKeyField options, maxAge := ma, sliding := sl,
    created := now, accessed := now }

/-- **C9 (amended).** For a write of a pending promise whose resolved
policy's `maxAge` is not the number `0` (so the write is not the
early-return no-op): without `keepRejectedPromise` a rejection handler
is attached, and once the rejection settles the handler's
`remove(key)` leaves no entry under the key — `has` is false and the
next call recomputes; with `keepRejectedPromise` no handler is
attached, settlement leaves the state untouched, and the promise entry
stays in storage until natural expiration. -/
theorem rejected_promise_policy (st : ManagerState) (k : Key) (i : Nat)
    (options : Option CacheOptions) (ps : Option (List Value)) (now : Int)
    (st' : ManagerState) (att : Bool)
    (hset : setFull st k (Value.vprom i) options ps now = (st', att))
    (hnz : ∀ p n, resolvePolicy st options = some p → p.maxAge = MaxAge.num n → n ≠ 0) :
    ((∀ p, resolvePolicy st options = some p → p.keepRejectedPromise ≠ some true) →
      att = true ∧
      (settleRejection st' k att true).storage (getHash k) = none ∧
      (∀ now', (hasOp (settleRejection st' k att true) k now').1 = false)) ∧
    (∀ p, resolvePolicy st options = some p → p.keepRejectedPromise = some true →
      att = false ∧
      (∀ rejected, settleRejection st' k att rejected = st') ∧
      (∃ it, st'.storage (getHash k) = some it ∧ it.value = Value.vprom i)) := by
  have evict : ∀ s : ManagerState,
      (settleRejection s k true true).storage (getHash k) = none ∧
      (∀ now', (hasOp (settleRejection s k true true) k now').1 = false) := by
    intro s
    have hs : (settleRejection s k true true).storage (getHash k) = none := by
      simp [settleRejection, remove_storage_self]
    exact ⟨hs, fun now' => by simp [hasOp, hs]⟩
  rcases Option.eq_none_or_eq_some (resolvePolicy st options) with hp | ⟨p, hp⟩
  · have hset2 : setFull st k (Value.vprom i) options ps now =
        (setCacheItem st (promItem k i options ps now none none), true) := by
      simp [setFull, hp, promItem]
    rw [hset] at hset2
    injection hset2 with hst hatt
    subst hst hatt
    refine ⟨fun _ => ⟨rfl, (evict _).1, (evict _).2⟩, ?_⟩
    intro p hpp
    exact Option.noConfusion (hp.symm.trans hpp)
  ·
    have main : ∀ ma : Option Int,
        st' = setCacheItem st (promItem k i options ps now ma p.sliding) →
        att = !(p.keepRejectedPromise = some true) →
        ((∀ q, resolvePolicy st options = some q → q.keepRejectedPromise ≠ some true) →
          att = true ∧
          (settleRejection st' k att true).storage (getHash k) = none ∧
          (∀ now', (hasOp (settleRejection st' k att true) k now').1 = false)) ∧
        (∀ q, resolvePolicy st options = some q → q.keepRejectedPromise = some true →
          att = false ∧
          (∀ rejected, settleRejection st' k att rejected = st') ∧
          (∃ it, st'.storage (getHash k) = some it ∧ it.value = Value.vprom i)) := by
      intro ma hst hatt
      constructor
      · intro hkr
        have hne := hkr p hp
        have ha : att = true := by
          rw [hatt]
          simp [hne]
        exact ⟨ha, ha ▸ (evict st').1, ha ▸ (evict st').2⟩
      · intro q hq hkq
        have hqp : q = p := by
          rw [hp] at hq
          exact (Option.some.inj hq).symm
        have hkp : p.keepRejectedPromise = some true := hqp ▸ hkq
        have ha : att = false := by
          rw [hatt, hkp]
          simp
        refine ⟨ha, fun rejected => by simp [settleRejection, ha], ?_⟩
        refine ⟨promItem k i options ps now ma p.sliding, ?_, rfl⟩
        rw [hst, setCacheItem_storage]
        exact updateMap_self _ _ _
    cases pm : p.maxAge with
    | num n =>
      have hn0 : ¬n = 0 := hnz p n hp pm
      have hset2 : setFull st k (Value.vprom i) options ps now =
          (setCacheItem st (promItem k i options ps now (some n) p.sliding),
           !(p.keepRejectedPromise = some true)) := by
        simp [setFull, hp, pm, hn0, promItem]
      rw [hset] at hset2
      injection hset2 with hst hatt
      exact main (some n) hst hatt
    | fn f =>
      have hset2 : setFull st k (Value.vprom i) options ps now =
          (setCacheItem st (promItem k i options ps now (some (f (ps.getD []))) p.sliding),
           !(p.keepRejectedPromise = some true)) := by
        simp [setFull, hp, pm, promItem]
      rw [hset] at hset2
      injection hset2 with hst hatt
      exact main (some (f (ps.getD []))) hst hatt

/-- Witness for the amended C9: an option-less promise write attaches
the handler, and after the rejection settles the key is absent (`has`
is false at time `9`). -/
theorem rejected_promise_policy_witness :
    (setFull ManagerState.initial (Key.kstr "k") (Value.vprom 0) none none 0).2 = true ∧
    (hasOp (settleRejection
        (setFull ManagerState.initial (Key.kstr "k") (Value.vprom 0) none none 0).1
        (Key.kstr "k")
        (setFull ManagerState.initial (Key.kstr "k") (Value.vprom 0) none none 0).2 true)
      (Key.kstr "k") 9).1 = false := by
  have h := (rejected_promise_policy ManagerState.initial (Key.kstr "k") 0 none none 0
    (setFull ManagerState.initial (Key.kstr "k") (Value.vprom 0) none none 0).1
    (setFull ManagerState.initial (Key.kstr "k") (Value.vprom 0) none none 0).2 rfl
    (fun p n hp => nomatch hp)).1 (fun p hp => nomatch hp)
  exact ⟨h.1, h.2.2 9⟩

end ManagedCache
